import Mathlib

/-!
Verification of the rpm_srv HTTP package-repository gateway (src/src/main.rs).

The development shallowly embeds the core of `main.rs`:
* path parsing (`drop_non_string_comp`, `convert_string_com`, `parse_request`,
  lines 71-101), via a character-level model of Rust `std::path` component
  iteration on Unix;
* filesystem realisation (`ensure_dir_exists`, `ensure_repo_exists`,
  `repo_path`, `file_path`, lines 31-68) over an explicit association-list
  filesystem state;
* the refresh coordinator and dispatcher (`cache_arg`, `process_put_req`,
  `process_post_req`, `handle`, lines 103-175), with the external
  `createrepo` subprocess modelled by an explicit spawn outcome and Rust
  panics modelled by `Except.error` carrying the panic message;
* the process-wide refresh mutex, modelled as a step relation on a lock
  state (one phase per handler thread).
-/

/-! ## Character-level path splitting (Rust `std::path` on Unix) -/

/-- Split a character list at every `'/'`; the separators themselves are
dropped and empty runs between consecutive separators yield empty parts,
exactly as Rust's path component iterator sees them before normalisation. -/
def splitSlashChars : List Char → List (List Char)
  | [] => [[]]
  | c :: cs =>
    if c = '/' then [] :: splitSlashChars cs
    else
      match splitSlashChars cs with
      | [] => [[c]]
      | p :: ps => (c :: p) :: ps

/-- The raw `/`-separated parts of a path string (possibly empty strings). -/
def rawParts (s : String) : List String :=
  (splitSlashChars s.data).map (fun l => String.mk l)

/-- Does the string start with a `'/'` (Unix absolute path)? -/
def startsWithSlash (s : String) : Bool :=
  match s.data with
  | c :: _ => c = '/'
  | [] => false

/-- Does the string end with a `'/'`? -/
def endsWithSlash (s : String) : Bool :=
  match s.data.getLast? with
  | some c => c = '/'
  | none => false

/-- Rust `Path::join` / `PathBuf::push` on Unix string paths: an absolute
argument replaces the base, otherwise a separator is inserted unless the
base is empty or already ends with one. -/
def rustJoin (a b : String) : String :=
  if startsWithSlash b then b
  else if a = "" then b
  else if endsWithSlash a then a ++ b
  else a ++ "/" ++ b

/-- A Rust `std::path` component on Unix. -/
inductive PathComp where
  | rootDir
  | curDir
  | parentDir
  | normal (s : String)
deriving DecidableEq

/-- Classify one non-empty raw part as a path component. -/
def classifyPart (p : String) : PathComp :=
  if p = ".." then PathComp.parentDir
  else if p = "." then PathComp.curDir
  else PathComp.normal p

/-- The classified non-empty parts of a path string, before `.`
normalisation. -/
def compBody (s : String) : List PathComp :=
  ((rawParts s).filter (fun p => p != "")).map classifyPart

/-- The classified parts with every `.` component removed. -/
def compNoCur (s : String) : List PathComp :=
  (compBody s).filter (fun c => c != PathComp.curDir)

/-- Rust `Path::components()` on Unix: a leading `/` yields `RootDir`;
empty parts are dropped; `.` parts are normalised away except a leading
`.` of a relative path, which is kept as `CurDir`. -/
def pathComponents (s : String) : List PathComp :=
  if startsWithSlash s then
    PathComp.rootDir :: compNoCur s
  else if (compBody s).head? = some PathComp.curDir then
    PathComp.curDir :: compNoCur s
  else
    compNoCur s

/-! ## Path parsing (`main.rs` lines 71-101) -/

/-- Embeds `drop_non_string_comp` (main.rs:71-76): keep only `Normal`
components. -/
def drop_non_string_comp (c : PathComp) : Bool :=
  match c with
  | PathComp.normal _ => true
  | _ => false

/-- Embeds `convert_string_com` (main.rs:78-83): extract the payload of a
`Normal` component.  The source panics on any other component; that branch
is unreachable after the `drop_non_string_comp` filter, and the embedding
returns `""` there. -/
def convert_string_com (c : PathComp) : String :=
  match c with
  | PathComp.normal val => val
  | _ => ""

/-- The component pipeline of `parse_request` (main.rs:90):
`path.components().filter(drop_non_string_comp).map(convert_string_com)`. -/
def requestComponents (val : String) : List String :=
  ((pathComponents val).filter drop_non_string_comp).map convert_string_com

/-- Embeds `hyper::uri::RequestUri` as far as `parse_request` inspects it. -/
inductive RequestUri where
  | absolutePath (val : String)
  | other
deriving DecidableEq

/-- Embeds the `HttpError` struct (main.rs:17-21); status codes are their
numeric values. -/
structure HttpError where
  code : Nat
  error : String
deriving DecidableEq

/-- Embeds the `RepoRequest` struct (main.rs:23-27). -/
structure RepoRequest where
  repo_name : String
  file_name : Option String
deriving DecidableEq

/-- Embeds `parse_request` (main.rs:85-101): keep the `Normal` path
components and match on how many remain. -/
def parse_request (uri : RequestUri) : Except HttpError RepoRequest :=
  match uri with
  | RequestUri.absolutePath val =>
    match requestComponents val with
    | [r] => Except.ok { repo_name := r, file_name := none }
    | [r, f] => Except.ok { repo_name := r, file_name := some f }
    | _ => Except.error { code := 400, error := "Invalid path specified" }
  | RequestUri.other =>
    Except.error { code := 400, error := "Invalid URI specified" }

/-! ## Plain segments and path normalisation -/

/-- A plain-name path segment: non-empty, not a current- or
parent-directory reference, and free of separators. -/
def isPlainSegment (s : String) : Prop :=
  s ≠ "" ∧ s ≠ "." ∧ s ≠ ".." ∧ '/' ∉ s.data

instance (s : String) : Decidable (isPlainSegment s) := by
  unfold isPlainSegment; infer_instance

/-- The non-empty `/`-separated segments of a path string. -/
def segsOfString (s : String) : List String :=
  (rawParts s).filter (fun p => p != "")

/-- One step of lexical path normalisation: empty and `.` segments vanish,
`..` pops the last segment, plain segments are appended. -/
def normalizeStep (acc : List String) (seg : String) : List String :=
  if seg = "" then acc
  else if seg = "." then acc
  else if seg = ".." then acc.dropLast
  else acc ++ [seg]

/-- Lexical normalisation of a segment list (resolving `.` and `..`). -/
def normalizeSegs (segs : List String) : List String :=
  segs.foldl normalizeStep []

/-- `p` resolves to a location inside directory `dir` (inclusive): the
normalised segment list of `dir` is an initial run of `p`. -/
def withinDir (dir p : List String) : Prop :=
  p.take dir.length = dir

/-! ## Rust file-name and extension semantics -/

/-- Rust `Path::file_name()` on Unix: the last component when it is a
normal name (`.` components are normalised away; a trailing `..` or a
bare root yields `None`). -/
def rustFileName (s : String) : Option String :=
  match ((segsOfString s).filter (fun p => p != ".")).getLast? with
  | some p => if p = ".." then none else some p
  | none => none

/-- Split a character list at its last `'.'`: `some (before, after)` when
a dot exists, `none` otherwise. -/
def extSplit : List Char → Option (List Char × List Char)
  | [] => none
  | c :: cs =>
    match extSplit cs with
    | some (b, a) => some (c :: b, a)
    | none => if c = '.' then some ([], cs) else none

/-- Rust extension of a bare file name: the part after the last dot,
unless there is no dot or the last dot is the leading character (hidden
file), in which case there is no extension. -/
def rustExtension (f : String) : Option String :=
  match extSplit f.data with
  | some (b, a) => if b = [] then none else some (String.mk a)
  | none => none

/-- Rust `Path::extension()`: the extension of the path's file name. -/
def rustPathExtension (s : String) : Option String :=
  match rustFileName s with
  | some f => rustExtension f
  | none => none

/-! ## The filesystem model -/

/-- What a filesystem node is. -/
inductive NodeKind where
  | dir
  | file
deriving DecidableEq

/-- The filesystem state: an association list from paths (segment lists)
to node kinds; earlier entries shadow later ones. -/
def FsState : Type := List (List String × NodeKind)

instance : DecidableEq FsState := by
  unfold FsState; infer_instance

/-- Look a path up in the filesystem state. -/
def fsLookup : FsState → List String → Option NodeKind
  | [], _ => none
  | (q, k) :: rest, p => if q = p then some k else fsLookup rest p

/-- All non-empty prefixes of a path, shortest first. -/
def pathPrefixes (p : List String) : List (List String) :=
  (List.range p.length).map (fun i => p.take (i + 1))

/-- Create every directory in the given list that is missing, in order:
the recursive mode of Rust `fs::DirBuilder` (main.rs:33-35).  Creation
fails — the source `unwrap`s, i.e. panics — when a path in the list
already exists as a regular file. -/
def mkdirAll (fs : FsState) : List (List String) → Except String FsState
  | [] => Except.ok fs
  | q :: qs =>
    match fsLookup fs q with
    | some NodeKind.dir => mkdirAll fs qs
    | some NodeKind.file => Except.error "mkdir failed: not a directory"
    | none => mkdirAll ((q, NodeKind.dir) :: fs) qs

/-- The `is_dir` check of `ensure_dir_exists` (main.rs:38-40): after the
optional creation, panic unless the path refers to a directory. -/
def dir_check (p : List String) (r : Except String FsState) :
    Except String FsState :=
  match r with
  | Except.error msg => Except.error msg
  | Except.ok fs2 =>
    if fsLookup fs2 p = some NodeKind.dir then Except.ok fs2
    else Except.error "Path must refer to the directory"

/-- Embeds `ensure_dir_exists` (main.rs:31-41): create the directory
recursively when the path does not exist, then panic unless the path now
refers to a directory.  `Except.error` carries the panic message. -/
def ensure_dir_exists (p : List String) (fs : FsState) : Except String FsState :=
  dir_check p
    (match fsLookup fs p with
     | none => mkdirAll fs (pathPrefixes p)
     | some _ => Except.ok fs)

/-- Embeds `RepoRequest::ensure_repo_exists` (main.rs:43-48): ensure
`<root>/<repo_name>/` and `<root>/<repo_name>/rpms/` exist. -/
def RepoRequest.ensure_repo_exists (req : RepoRequest) (root : String)
    (fs : FsState) : Except String FsState :=
  match ensure_dir_exists (segsOfString (rustJoin root req.repo_name)) fs with
  | Except.error msg => Except.error msg
  | Except.ok fs1 =>
    ensure_dir_exists (segsOfString (rustJoin root req.repo_name) ++ ["rpms"]) fs1

/-- Embeds `RepoRequest::repo_path` (main.rs:50-53): the pure join
`<root>/<repo_name>`. -/
def RepoRequest.repo_path (req : RepoRequest) (root : String) : String :=
  rustJoin root req.repo_name

/-- The tail of `RepoRequest::file_path` (main.rs:59-67) once the file
name has been unwrapped: join `<rpm_path>/<name>`, `unwrap` the extension
and panic unless it is exactly `"rpm"`. -/
def file_path_checked (rpmPath name : String) : Except String String :=
  match rustPathExtension (rustJoin rpmPath name) with
  | none => Except.error "called Option::unwrap on a None value"
  | some extension =>
    if extension ≠ "rpm" then
      Except.error ("Unexpected file name " ++ name ++ ", it must be rpm file")
    else
      Except.ok (rustJoin rpmPath name)

/-- Embeds `RepoRequest::file_path` (main.rs:55-68): join
`<root>/<repo_name>/rpms/<file_name>`, then `unwrap` the extension and
panic unless it is exactly `"rpm"`.  `Except.error` carries the panic
message of the corresponding source `unwrap`/`panic!`. -/
def RepoRequest.file_path (req : RepoRequest) (root : String) :
    Except String String :=
  match req.file_name with
  | none => Except.error "called Option::unwrap on a None value"
  | some name => file_path_checked (rustJoin (req.repo_path root) "rpms") name

/-- Rust `fs::File::create`: succeeds when the parent directory exists and
the path itself is not a directory; the new (or truncated) file replaces
any previous node at the path. -/
def fsCreateFile (fs : FsState) (p : List String) : Except String FsState :=
  match fsLookup fs p.dropLast, fsLookup fs p with
  | some NodeKind.dir, some NodeKind.dir => Except.error "Is a directory"
  | some NodeKind.dir, _ => Except.ok ((p, NodeKind.file) :: fs)
  | _, _ => Except.error "No such file or directory"

/-! ## Refresh coordination and dispatch (main.rs lines 103-175) -/

/-- Embeds `cache_arg` (main.rs:103-111): `--cachedir=<root>/cache`. -/
def cache_arg (root : String) : String :=
  "--cachedir=" ++ rustJoin root "cache"

/-- The environment's behaviour for one `createrepo` invocation: the spawn
fails, the wait fails, or the child exits with a status code. -/
inductive SpawnResult where
  | spawnError (e : String)
  | waitFailed (e : String)
  | exited (code : Nat)
deriving DecidableEq

/-- Embeds `RestApiHandler::process_put_req` (main.rs:120-129): `unwrap`
the parsed request, ensure the repository layout, resolve the file path,
create the file and copy the body into it.  Every source `unwrap` turns a
failure into a panic, modelled by `Except.error`.  On success the result
carries the filesystem state, the byte count copied and the target path. -/
def process_put_req (root : String) (uri : RequestUri) (body_len : Nat)
    (fs : FsState) : Except String (FsState × Nat × String) :=
  match parse_request uri with
  | Except.error e =>
    Except.error ("called Result::unwrap on an Err value: " ++ e.error)
  | Except.ok parsed_req =>
    match parsed_req.ensure_repo_exists root fs with
    | Except.error msg => Except.error msg
    | Except.ok fs1 =>
      match parsed_req.file_path root with
      | Except.error msg => Except.error msg
      | Except.ok filePath =>
        match fsCreateFile fs1 (segsOfString filePath) with
        | Except.error msg => Except.error msg
        | Except.ok fs2 => Except.ok (fs2, body_len, filePath)

/-- Embeds `RestApiHandler::process_post_req` (main.rs:131-158): `unwrap`
the parsed request, ensure the repository layout, take the refresh lock,
spawn `createrepo --cachedir=<root>/cache --update <root>/<repo>` and map
the outcome to a status code, logging failures.  On success the result
carries the status, the filesystem state, the attempted invocation
(command name and argument list, in order) and the error log entries. -/
def process_post_req (root : String) (sr : SpawnResult) (uri : RequestUri)
    (fs : FsState) :
    Except String (Nat × FsState × (String × List String) × List String) :=
  match parse_request uri with
  | Except.error e =>
    Except.error ("called Result::unwrap on an Err value: " ++ e.error)
  | Except.ok parsed_req =>
    match parsed_req.ensure_repo_exists root fs with
    | Except.error msg => Except.error msg
    | Except.ok fs1 =>
      let repoPath := parsed_req.repo_path root
      let cacheArg := cache_arg root
      let invoked := ("createrepo", [cacheArg, "--update", repoPath])
      match sr with
      | SpawnResult.spawnError e =>
        Except.ok (500, fs1, invoked,
          ["Failed to spawn createrepo command, error " ++ e])
      | SpawnResult.waitFailed e =>
        Except.error ("called Result::unwrap on an Err value: " ++ e)
      | SpawnResult.exited code =>
        if code = 0 then
          Except.ok (200, fs1, invoked, [])
        else
          Except.ok (500, fs1, invoked,
            ["Failed to perform metadata refresh for repo " ++ repoPath ++
              ", exit status " ++ toString code])

/-- The HTTP methods the dispatcher distinguishes. -/
inductive Method where
  | get
  | put
  | post
  | delete
deriving DecidableEq

/-- The observable outcome of one `handle` call: an explicit HTTP status
together with the final filesystem state, the subprocess invocations and
the log entries — or a panic that escapes the handler. -/
inductive HandleResult where
  | status (code : Nat) (fs : FsState) (spawned : List (String × List String))
      (logs : List String)
  | panicked (msg : String)
deriving DecidableEq

/-- Did the handler terminate in an explicit HTTP status? -/
def HandleResult.isStatus : HandleResult → Bool
  | HandleResult.status _ _ _ _ => true
  | HandleResult.panicked _ => false

/-- The status code the handler produced, if any. -/
def statusCodeOf : HandleResult → Option Nat
  | HandleResult.status c _ _ _ => some c
  | HandleResult.panicked _ => none

/-- Embeds `RestApiHandler::handle` (main.rs:161-175): `Put` runs the
upload and sets `200`, `Post` sets the refresh outcome's status, and every
other method — `Get` included — sets `405 MethodNotAllowed`. -/
def handle (root : String) (sr : SpawnResult) (m : Method) (uri : RequestUri)
    (body_len : Nat) (fs : FsState) : HandleResult :=
  match m with
  | Method.put =>
    match process_put_req root uri body_len fs with
    | Except.ok (fs2, copied, filePath) =>
      HandleResult.status 200 fs2 []
        ["Read " ++ toString copied ++ " bytes to file " ++ filePath]
    | Except.error msg => HandleResult.panicked msg
  | Method.post =>
    match process_post_req root sr uri fs with
    | Except.ok (code, fs1, invoked, logs) =>
      HandleResult.status code fs1 [invoked] logs
    | Except.error msg => HandleResult.panicked msg
  | _ => HandleResult.status 405 fs [] []

/-! ## The process-wide refresh lock (main.rs:113-116, 140-158)

`RestApiHandler` owns a single `sync::Mutex` (`refresh_lock`).  In
`process_post_req` the handler thread acquires it (`lock().unwrap()`,
line 140) before spawning `createrepo`, keeps it for the whole
spawn-and-wait, and the guard is dropped — the lock released — when the
function returns, in the spawn-failure, non-zero-exit and zero-exit
branches alike.  The model gives every handler thread a phase and lets
the lock hold the identity of its owner. -/

/-- The phase of one handler thread with respect to the refresh lock. -/
inductive RefreshPhase where
  | idle
  | waitingLock
  | inFlight
  | finished (outcome : SpawnResult)
deriving DecidableEq

/-- The shared lock state of `n` handler threads: who holds the mutex, and
each thread's phase. -/
structure LockState (n : Nat) where
  holder : Option (Fin n)
  phase : Fin n → RefreshPhase

/-- Server startup: the mutex is free and no refresh is running. -/
def initLockState (n : Nat) : LockState n :=
  { holder := none, phase := fun _ => RefreshPhase.idle }

/-- One atomic step of the refresh lock protocol of `process_post_req`:
a thread starts a refresh, acquires the free mutex (line 140), or — for
every possible subprocess outcome — drops the guard at scope end. -/
inductive RefreshStep {n : Nat} : LockState n → LockState n → Prop where
  | request (s : LockState n) (t : Fin n) :
      s.phase t = RefreshPhase.idle →
      RefreshStep s ⟨s.holder, Function.update s.phase t RefreshPhase.waitingLock⟩
  | acquire (s : LockState n) (t : Fin n) :
      s.phase t = RefreshPhase.waitingLock → s.holder = none →
      RefreshStep s ⟨some t, Function.update s.phase t RefreshPhase.inFlight⟩
  | release (s : LockState n) (t : Fin n) (outcome : SpawnResult) :
      s.phase t = RefreshPhase.inFlight →
      RefreshStep s ⟨none, Function.update s.phase t (RefreshPhase.finished outcome)⟩

/-- The lock states reachable from server startup. -/
inductive LockReachable {n : Nat} : LockState n → Prop where
  | init : LockReachable (initLockState n)
  | step {s s' : LockState n} :
      LockReachable s → RefreshStep s s' → LockReachable s'

/-- The lock invariant: a thread is in flight exactly when it holds the
mutex. -/
def lockInv {n : Nat} (s : LockState n) : Prop :=
  ∀ t, s.phase t = RefreshPhase.inFlight ↔ s.holder = some t

/-! ## Lemmas about splitting and joining paths -/

theorem splitSlashChars_ne_nil (l : List Char) : splitSlashChars l ≠ [] := by
  induction l with
  | nil => simp [splitSlashChars]
  | cons c cs ih =>
    simp only [splitSlashChars]
    by_cases hc : c = '/'
    · simp [hc]
    · rw [if_neg hc]
      cases h : splitSlashChars cs with
      | nil => simp
      | cons p ps => simp

theorem splitSlashChars_cons_slash (cs : List Char) :
    splitSlashChars ('/' :: cs) = [] :: splitSlashChars cs := by
  simp [splitSlashChars]

theorem splitSlashChars_cons_ne {c : Char} (cs : List Char) (hc : c ≠ '/') :
    splitSlashChars (c :: cs) =
      match splitSlashChars cs with
      | [] => [[c]]
      | p :: ps => (c :: p) :: ps := by
  simp [splitSlashChars, hc]

theorem mem_splitSlashChars_no_slash {l p : List Char}
    (hp : p ∈ splitSlashChars l) : '/' ∉ p := by
  induction l generalizing p with
  | nil =>
    simp only [splitSlashChars, List.mem_singleton] at hp
    subst hp; simp
  | cons c cs ih =>
    by_cases hc : c = '/'
    · subst hc
      rw [splitSlashChars_cons_slash] at hp
      rcases List.mem_cons.mp hp with rfl | hp
      · simp
      · exact ih hp
    · rw [splitSlashChars_cons_ne cs hc] at hp
      obtain ⟨q, qs, h⟩ := List.exists_cons_of_ne_nil (splitSlashChars_ne_nil cs)
      rw [h] at hp
      simp only at hp
      rcases List.mem_cons.mp hp with rfl | hp2
      · have hq : q ∈ splitSlashChars cs := by
          rw [h]; exact List.mem_cons_self _ _
        have hnq := ih hq
        intro hmem
        rcases List.mem_cons.mp hmem with heq | hmem2
        · exact hc heq.symm
        · exact hnq hmem2
      · exact ih (by rw [h]; exact List.mem_cons_of_mem _ hp2)

theorem splitSlashChars_append (l1 l2 : List Char) :
    splitSlashChars (l1 ++ '/' :: l2) =
      splitSlashChars l1 ++ splitSlashChars l2 := by
  induction l1 with
  | nil => simp [splitSlashChars]
  | cons c cs ih =>
    by_cases hc : c = '/'
    · subst hc
      rw [List.cons_append, splitSlashChars_cons_slash,
        splitSlashChars_cons_slash, ih]
      rfl
    · rw [List.cons_append, splitSlashChars_cons_ne _ hc,
        splitSlashChars_cons_ne _ hc, ih]
      obtain ⟨p, ps, h⟩ := List.exists_cons_of_ne_nil (splitSlashChars_ne_nil cs)
      rw [h]
      simp

theorem splitSlashChars_of_no_slash {l : List Char} (h : '/' ∉ l) :
    splitSlashChars l = [l] := by
  induction l with
  | nil => rfl
  | cons c cs ih =>
    have hc : ¬ c = '/' := fun e => h (e ▸ List.mem_cons_self _ _)
    have hcs : '/' ∉ cs := fun m => h (List.mem_cons_of_mem _ m)
    simp [splitSlashChars, hc, ih hcs]

theorem string_data_append (a b : String) : (a ++ b).data = a.data ++ b.data :=
  rfl

/-- The segment list of a character list: the string form of each
non-empty part. -/
def segsOfChars (l : List Char) : List String :=
  ((splitSlashChars l).map (fun p => String.mk p)).filter (fun p => p != "")

theorem segsOfString_eq_segsOfChars (s : String) :
    segsOfString s = segsOfChars s.data := rfl

theorem segsOfChars_append (l1 l2 : List Char) :
    segsOfChars (l1 ++ '/' :: l2) = segsOfChars l1 ++ segsOfChars l2 := by
  unfold segsOfChars
  rw [splitSlashChars_append, List.map_append, List.filter_append]

theorem segsOfChars_nil : segsOfChars [] = [] := rfl

theorem segsOfChars_of_plain {b : String} (hb : isPlainSegment b) :
    segsOfChars b.data = [b] := by
  unfold segsOfChars
  rw [splitSlashChars_of_no_slash hb.2.2.2]
  simp [hb.1]

theorem startsWithSlash_eq_false_of_plain {b : String} (hb : isPlainSegment b) :
    startsWithSlash b = false := by
  unfold startsWithSlash
  cases h : b.data with
  | nil => rfl
  | cons c cs =>
    have : c ≠ '/' := by
      intro e
      exact hb.2.2.2 (by rw [h, e]; exact List.mem_cons_self _ _)
    simp [this]

theorem segsOfString_rustJoin (a : String) {b : String}
    (hb : isPlainSegment b) :
    segsOfString (rustJoin a b) = segsOfString a ++ [b] := by
  have hsw := startsWithSlash_eq_false_of_plain hb
  by_cases ha : a = ""
  · subst ha
    have hj : rustJoin "" b = b := by simp [rustJoin, hsw]
    rw [hj, segsOfString_eq_segsOfChars, segsOfChars_of_plain hb]
    rfl
  · by_cases he : endsWithSlash a = true
    · have hj : rustJoin a b = a ++ b := by simp [rustJoin, hsw, ha, he]
      rw [hj]
      unfold endsWithSlash at he
      rcases hlast : a.data.getLast? with _ | c
      · rw [hlast] at he; simp at he
      · rw [hlast] at he
        have hc : c = '/' := by
          by_cases h : c = '/'
          · exact h
          · simp [h] at he
        subst hc
        have hne : a.data ≠ [] := by
          intro h0; rw [h0] at hlast; simp at hlast
        have hsplit : a.data = a.data.dropLast ++ ['/'] := by
          conv_lhs => rw [← List.dropLast_append_getLast hne]
          have : a.data.getLast hne = '/' := by
            have := List.getLast?_eq_getLast a.data hne
            rw [hlast] at this
            exact (Option.some_injective _ this.symm)
          rw [this]
        rw [segsOfString_eq_segsOfChars, segsOfString_eq_segsOfChars,
          string_data_append, hsplit]
        rw [List.append_assoc, List.singleton_append, segsOfChars_append,
          segsOfChars_append, segsOfChars_nil, List.append_nil,
          segsOfChars_of_plain hb]
    · have hj : rustJoin a b = a ++ "/" ++ b := by
        simp [rustJoin, hsw, ha, he]
      rw [hj, segsOfString_eq_segsOfChars, segsOfString_eq_segsOfChars]
      have : (a ++ "/" ++ b).data = a.data ++ '/' :: b.data := by
        rw [string_data_append, string_data_append]
        simp
      rw [this, segsOfChars_append, segsOfChars_of_plain hb]

/-! ## Every kept request component is a plain name -/

theorem mem_rawParts_plainish {s : String} {p : String}
    (hp : p ∈ rawParts s) : '/' ∉ p.data := by
  unfold rawParts at hp
  rcases List.mem_map.mp hp with ⟨l, hl, rfl⟩
  exact mem_splitSlashChars_no_slash hl

theorem pathComponents_normal_mem {s : String} {p : String}
    (h : PathComp.normal p ∈ pathComponents s) :
    PathComp.normal p ∈ compBody s := by
  unfold pathComponents at h
  by_cases habs : startsWithSlash s = true
  · rw [if_pos habs] at h
    rcases List.mem_cons.mp h with heq | hmem
    · exact absurd heq (by simp)
    · exact List.mem_of_mem_filter hmem
  · rw [if_neg habs] at h
    by_cases hh : (compBody s).head? = some PathComp.curDir
    · rw [if_pos hh] at h
      rcases List.mem_cons.mp h with heq | hmem
      · exact absurd heq (by simp)
      · exact List.mem_of_mem_filter hmem
    · rw [if_neg hh] at h
      exact List.mem_of_mem_filter h

theorem requestComponents_plain {val q : String}
    (hq : q ∈ requestComponents val) : isPlainSegment q := by
  unfold requestComponents at hq
  rcases List.mem_map.mp hq with ⟨c, hc, hcq⟩
  have hcf := List.of_mem_filter hc
  have hcm := List.mem_of_mem_filter hc
  cases c with
  | rootDir => simp [drop_non_string_comp] at hcf
  | curDir => simp [drop_non_string_comp] at hcf
  | parentDir => simp [drop_non_string_comp] at hcf
  | normal p =>
    have hq_eq : q = p := by
      rw [← hcq]; rfl
    subst hq_eq
    have hmem := pathComponents_normal_mem hcm
    unfold compBody at hmem
    rcases List.mem_map.mp hmem with ⟨p', hp', hclass⟩
    have hp'f := List.of_mem_filter hp'
    have hp'm := List.mem_of_mem_filter hp'
    have hnd : p' ≠ ".." := by
      intro e
      rw [e] at hclass
      simp [classifyPart] at hclass
    have hnc : p' ≠ "." := by
      intro e
      rw [e] at hclass
      simp [classifyPart] at hclass
    have hpl : p' = q := by
      unfold classifyPart at hclass
      rw [if_neg hnd, if_neg hnc] at hclass
      exact (PathComp.normal.injEq _ _).mp hclass
    subst hpl
    refine ⟨?_, hnc, hnd, mem_rawParts_plainish hp'm⟩
    intro e
    rw [e] at hp'f
    simp at hp'f

/-! ## Normalisation of plain suffixes -/

theorem foldl_normalizeStep_plain (ys : List String) (acc : List String)
    (h : ∀ y ∈ ys, isPlainSegment y) :
    ys.foldl normalizeStep acc = acc ++ ys := by
  induction ys generalizing acc with
  | nil => simp
  | cons y ys ih =>
    have hy := h y (List.mem_cons_self _ _)
    have hstep : normalizeStep acc y = acc ++ [y] := by
      simp [normalizeStep, hy.1, hy.2.1, hy.2.2.1]
    rw [List.foldl_cons, hstep,
      ih _ (fun z hz => h z (List.mem_cons_of_mem _ hz))]
    simp

theorem normalizeSegs_append_plain (xs ys : List String)
    (h : ∀ y ∈ ys, isPlainSegment y) :
    normalizeSegs (xs ++ ys) = normalizeSegs xs ++ ys := by
  unfold normalizeSegs
  rw [List.foldl_append]
  exact foldl_normalizeStep_plain ys _ h

/-! ## Equation lemmas for the request parser and file-path resolution -/

theorem parse_request_absolutePath (val : String) :
    parse_request (RequestUri.absolutePath val) =
      match requestComponents val with
      | [r] => Except.ok { repo_name := r, file_name := none }
      | [r, f] => Except.ok { repo_name := r, file_name := some f }
      | _ => Except.error { code := 400, error := "Invalid path specified" } :=
  rfl

theorem file_path_none {req : RepoRequest} (root : String)
    (h : req.file_name = none) :
    req.file_path root = Except.error "called Option::unwrap on a None value" := by
  unfold RepoRequest.file_path
  rw [h]

theorem file_path_some {req : RepoRequest} (root : String) {f : String}
    (h : req.file_name = some f) :
    req.file_path root =
      file_path_checked (rustJoin (req.repo_path root) "rpms") f := by
  unfold RepoRequest.file_path
  rw [h]

theorem rustFileName_rustJoin (a : String) {b : String}
    (hb : isPlainSegment b) : rustFileName (rustJoin a b) = some b := by
  unfold rustFileName
  rw [segsOfString_rustJoin a hb, List.filter_append]
  have hone : ([b].filter (fun p => p != ".")) = [b] := by
    simp [hb.2.1]
  rw [hone]
  rw [List.getLast?_concat]
  simp [hb.2.2.1]

theorem rustPathExtension_rustJoin (a : String) {b : String}
    (hb : isPlainSegment b) :
    rustPathExtension (rustJoin a b) = rustExtension b := by
  unfold rustPathExtension
  rw [rustFileName_rustJoin a hb]

/-! ## Claims C1 and C2: path parsing -/

theorem parse_request_ok_plain {uri : RequestUri} {req : RepoRequest}
    (h : parse_request uri = Except.ok req) :
    isPlainSegment req.repo_name ∧
    ∀ f, req.file_name = some f → isPlainSegment f := by
  cases uri with
  | other => exact absurd h (by simp [parse_request])
  | absolutePath val =>
    rw [parse_request_absolutePath] at h
    cases hc : requestComponents val with
    | nil => rw [hc] at h; exact absurd h (by simp)
    | cons r rest =>
      cases rest with
      | nil =>
        rw [hc] at h
        have h2 : Except.ok { repo_name := r, file_name := none } =
            (Except.ok req : Except HttpError RepoRequest) := h
        injection h2 with h3
        subst h3
        have hr : r ∈ requestComponents val := by
          rw [hc]; exact List.mem_cons_self _ _
        refine ⟨requestComponents_plain hr, ?_⟩
        intro f hf
        exact absurd hf (by simp)
      | cons f rest2 =>
        cases rest2 with
        | nil =>
          rw [hc] at h
          have h2 : Except.ok { repo_name := r, file_name := some f } =
              (Except.ok req : Except HttpError RepoRequest) := h
          injection h2 with h3
          subst h3
          have hr : r ∈ requestComponents val := by
            rw [hc]; exact List.mem_cons_self _ _
          refine ⟨requestComponents_plain hr, ?_⟩
          intro g hg
          have hg2 : some f = some g := hg
          injection hg2 with hg3
          subst hg3
          exact requestComponents_plain (by rw [hc]; simp)
        | cons x rest3 =>
          rw [hc] at h
          exact absurd h (by simp)

/-- Claim C1: `parse_request` discards every segment that is not a plain
name (root markers, `..` and `.` references) before counting, so the
`repo_name` and `file_name` of any returned `RepoRequest` are plain
single-name segments, and any file path the request resolves to
normalises to a location inside `<root>/<repo_name>/rpms/`. -/
theorem spec_c1 (uri : RequestUri) (req : RepoRequest)
    (h : parse_request uri = Except.ok req) :
    isPlainSegment req.repo_name ∧
    (∀ f, req.file_name = some f → isPlainSegment f) ∧
    (∀ root fp, req.file_path root = Except.ok fp →
      ∃ f, req.file_name = some f ∧
        normalizeSegs (segsOfString fp) =
          normalizeSegs (segsOfString root) ++ [req.repo_name, "rpms", f] ∧
        withinDir (normalizeSegs (segsOfString root) ++ [req.repo_name, "rpms"])
          (normalizeSegs (segsOfString fp))) := by
  obtain ⟨h1, h2⟩ := parse_request_ok_plain h
  refine ⟨h1, h2, ?_⟩
  intro root fp hfp
  cases hname : req.file_name with
  | none =>
    rw [file_path_none root hname] at hfp
    exact absurd hfp (by simp)
  | some f =>
    rw [file_path_some root hname] at hfp
    have hfplain := h2 f hname
    unfold file_path_checked at hfp
    rw [rustPathExtension_rustJoin _ hfplain] at hfp
    cases hext : rustExtension f with
    | none => rw [hext] at hfp; exact absurd hfp (by simp)
    | some extension =>
      rw [hext] at hfp
      by_cases hrpm : extension = "rpm"
      · subst hrpm
        have h2fp : Except.ok (rustJoin (rustJoin (req.repo_path root) "rpms") f) =
            (Except.ok fp : Except String String) := by
          simpa using hfp
        injection h2fp with h3fp
        subst h3fp
        have hrpms : isPlainSegment "rpms" := by decide
        have hsegs : segsOfString (rustJoin (rustJoin (req.repo_path root) "rpms") f) =
            segsOfString root ++ ([req.repo_name] ++ (["rpms"] ++ [f])) := by
          rw [segsOfString_rustJoin _ hfplain, segsOfString_rustJoin _ hrpms]
          unfold RepoRequest.repo_path
          rw [segsOfString_rustJoin _ h1]
          simp
        have hplainlist : ∀ y ∈ [req.repo_name] ++ (["rpms"] ++ [f]),
            isPlainSegment y := by
          intro y hy
          simp only [List.cons_append, List.nil_append, List.mem_cons,
            List.mem_singleton] at hy
          rcases hy with rfl | rfl | rfl | h0
          · exact h1
          · decide
          · exact hfplain
          · exact absurd h0 (by simp)
        have hnorm : normalizeSegs
            (segsOfString (rustJoin (rustJoin (req.repo_path root) "rpms") f)) =
            normalizeSegs (segsOfString root) ++ [req.repo_name, "rpms", f] := by
          rw [hsegs, normalizeSegs_append_plain _ _ hplainlist]
          simp
        refine ⟨f, rfl, hnorm, ?_⟩
        unfold withinDir
        rw [hnorm]
        have hsplit : normalizeSegs (segsOfString root) ++
              [req.repo_name, "rpms", f] =
            (normalizeSegs (segsOfString root) ++ [req.repo_name, "rpms"]) ++
              [f] := by
          simp
        rw [hsplit, List.take_left]
      · have hfp2 : (if extension ≠ "rpm" then
              Except.error ("Unexpected file name " ++ f ++ ", it must be rpm file")
            else Except.ok (rustJoin (rustJoin (req.repo_path root) "rpms") f)) =
            (Except.ok fp : Except String String) := hfp
        rw [if_pos hrpm] at hfp2
        exact absurd hfp2 (by simp)

/-- Witness for C1 at the request `PUT /acme/pkg-1.0.rpm` against root
`/srv`. -/
theorem spec_c1_witness :
    isPlainSegment "acme" ∧ isPlainSegment "pkg-1.0.rpm" ∧
    normalizeSegs (segsOfString "/srv/acme/rpms/pkg-1.0.rpm") =
      normalizeSegs (segsOfString "/srv") ++ ["acme", "rpms", "pkg-1.0.rpm"] := by
  have h := spec_c1 (RequestUri.absolutePath "/acme/pkg-1.0.rpm")
    { repo_name := "acme", file_name := some "pkg-1.0.rpm" } (by rfl)
  refine ⟨h.1, h.2.1 "pkg-1.0.rpm" rfl, ?_⟩
  obtain ⟨f, hf, heq, -⟩ := h.2.2 "/srv" "/srv/acme/rpms/pkg-1.0.rpm" (by rfl)
  have hf2 : some "pkg-1.0.rpm" = some f := hf
  injection hf2 with hf3
  subst hf3
  exact heq

/-- Claim C2: with the plain segments of the request path as components,
one component yields a repository-only request, two yield repository and
file in order, any other count is rejected with status 400, and a
non-absolute URI is rejected with status 400. -/
theorem spec_c2 (val : String) :
    (∀ r, requestComponents val = [r] →
      parse_request (RequestUri.absolutePath val) =
        Except.ok { repo_name := r, file_name := none }) ∧
    (∀ r f, requestComponents val = [r, f] →
      parse_request (RequestUri.absolutePath val) =
        Except.ok { repo_name := r, file_name := some f }) ∧
    ((requestComponents val).length ≠ 1 → (requestComponents val).length ≠ 2 →
      parse_request (RequestUri.absolutePath val) =
        Except.error { code := 400, error := "Invalid path specified" }) ∧
    parse_request RequestUri.other =
      Except.error { code := 400, error := "Invalid URI specified" } := by
  refine ⟨?_, ?_, ?_, rfl⟩
  · intro r hr
    rw [parse_request_absolutePath, hr]
  · intro r f hrf
    rw [parse_request_absolutePath, hrf]
  · intro h1 h2
    rw [parse_request_absolutePath]
    cases hc : requestComponents val with
    | nil => rfl
    | cons a rest =>
      cases rest with
      | nil => rw [hc] at h1; exact absurd rfl h1
      | cons b rest2 =>
        cases rest2 with
        | nil => rw [hc] at h2; exact absurd rfl h2
        | cons c rest3 => rfl

/-- Witness for C2 at one-, two- and three-segment paths. -/
theorem spec_c2_witness :
    parse_request (RequestUri.absolutePath "/acme") =
      Except.ok { repo_name := "acme", file_name := none } ∧
    parse_request (RequestUri.absolutePath "/acme/pkg-1.0.rpm") =
      Except.ok { repo_name := "acme", file_name := some "pkg-1.0.rpm" } ∧
    parse_request (RequestUri.absolutePath "/a/b/c") =
      Except.error { code := 400, error := "Invalid path specified" } := by
  refine ⟨(spec_c2 "/acme").1 "acme" (by rfl),
    (spec_c2 "/acme/pkg-1.0.rpm").2.1 "acme" "pkg-1.0.rpm" (by rfl),
    (spec_c2 "/a/b/c").2.2.1 (by decide) (by decide)⟩

/-! ## Equation lemmas for the dispatcher -/

theorem handle_put (root : String) (sr : SpawnResult) (uri : RequestUri)
    (n : Nat) (fs : FsState) :
    handle root sr Method.put uri n fs =
      match process_put_req root uri n fs with
      | Except.ok (fs2, copied, filePath) =>
        HandleResult.status 200 fs2 []
          ["Read " ++ toString copied ++ " bytes to file " ++ filePath]
      | Except.error msg => HandleResult.panicked msg :=
  rfl

theorem handle_post (root : String) (sr : SpawnResult) (uri : RequestUri)
    (n : Nat) (fs : FsState) :
    handle root sr Method.post uri n fs =
      match process_post_req root sr uri fs with
      | Except.ok (code, fs1, invoked, logs) =>
        HandleResult.status code fs1 [invoked] logs
      | Except.error msg => HandleResult.panicked msg :=
  rfl

theorem process_put_req_error (root : String) (uri : RequestUri) (n : Nat)
    (fs : FsState) {e : HttpError} (hp : parse_request uri = Except.error e) :
    process_put_req root uri n fs =
      Except.error ("called Result::unwrap on an Err value: " ++ e.error) := by
  unfold process_put_req
  rw [hp]

theorem process_put_req_parsed (root : String) (uri : RequestUri) (n : Nat)
    (fs : FsState) {req : RepoRequest}
    (hp : parse_request uri = Except.ok req) :
    process_put_req root uri n fs =
      match req.ensure_repo_exists root fs with
      | Except.error msg => Except.error msg
      | Except.ok fs1 =>
        match req.file_path root with
        | Except.error msg => Except.error msg
        | Except.ok filePath =>
          match fsCreateFile fs1 (segsOfString filePath) with
          | Except.error msg => Except.error msg
          | Except.ok fs2 => Except.ok (fs2, n, filePath) := by
  unfold process_put_req
  rw [hp]

theorem process_post_req_error (root : String) (sr : SpawnResult)
    (uri : RequestUri) (fs : FsState) {e : HttpError}
    (hp : parse_request uri = Except.error e) :
    process_post_req root sr uri fs =
      Except.error ("called Result::unwrap on an Err value: " ++ e.error) := by
  unfold process_post_req
  rw [hp]

theorem process_post_req_parsed (root : String) (sr : SpawnResult)
    (uri : RequestUri) (fs : FsState) {req : RepoRequest}
    (hp : parse_request uri = Except.ok req) :
    process_post_req root sr uri fs =
      match req.ensure_repo_exists root fs with
      | Except.error msg => Except.error msg
      | Except.ok fs1 =>
        match sr with
        | SpawnResult.spawnError e =>
          Except.ok (500, fs1,
            ("createrepo", [cache_arg root, "--update", req.repo_path root]),
            ["Failed to spawn createrepo command, error " ++ e])
        | SpawnResult.waitFailed e =>
          Except.error ("called Result::unwrap on an Err value: " ++ e)
        | SpawnResult.exited code =>
          if code = 0 then
            Except.ok (200, fs1,
              ("createrepo", [cache_arg root, "--update", req.repo_path root]),
              [])
          else
            Except.ok (500, fs1,
              ("createrepo", [cache_arg root, "--update", req.repo_path root]),
              ["Failed to perform metadata refresh for repo " ++
                req.repo_path root ++ ", exit status " ++ toString code]) := by
  unfold process_post_req
  rw [hp]

/-! ## Claim C3: a wrong extension panics instead of returning 400 -/

/-- Counterexample to C3 as stated: on `PUT /acme/pkg-1.0.tar` the wrong
extension makes the handling operation panic — it crashes with the
descriptive message and produces no HTTP status, in particular no 400. -/
theorem spec_c3_cex :
    handle "/srv" (SpawnResult.exited 0) Method.put
        (RequestUri.absolutePath "/acme/pkg-1.0.tar") 3 [] =
      HandleResult.panicked "Unexpected file name pkg-1.0.tar, it must be rpm file" ∧
    (handle "/srv" (SpawnResult.exited 0) Method.put
        (RequestUri.absolutePath "/acme/pkg-1.0.tar") 3 []).isStatus = false :=
  ⟨rfl, rfl⟩

/-- Claim C3 amended: for every plain file name whose extension is not
exactly `"rpm"`, `file_path` fails by panicking — with the descriptive
message when a different extension is present, and with the unwrap panic
when there is no extension — so the handling operation crashes rather
than reporting a 400 client error. -/
theorem spec_c3_amended (root repo name : String) (h : isPlainSegment name) :
    (rustExtension name = none →
      RepoRequest.file_path { repo_name := repo, file_name := some name } root =
        Except.error "called Option::unwrap on a None value") ∧
    (∀ e, rustExtension name = some e → e ≠ "rpm" →
      RepoRequest.file_path { repo_name := repo, file_name := some name } root =
        Except.error ("Unexpected file name " ++ name ++ ", it must be rpm file")) := by
  constructor
  · intro hnone
    rw [file_path_some root rfl]
    unfold file_path_checked
    rw [rustPathExtension_rustJoin _ h, hnone]
  · intro e hsome hne
    rw [file_path_some root rfl]
    unfold file_path_checked
    rw [rustPathExtension_rustJoin _ h, hsome]
    simp [hne]

/-- Witness for the amended C3 at a wrong extension and at a missing
extension. -/
theorem spec_c3_witness :
    RepoRequest.file_path
        { repo_name := "acme", file_name := some "pkg-1.0.tar" } "/srv" =
      Except.error "Unexpected file name pkg-1.0.tar, it must be rpm file" ∧
    RepoRequest.file_path
        { repo_name := "acme", file_name := some "README" } "/srv" =
      Except.error "called Option::unwrap on a None value" := by
  constructor
  · exact (spec_c3_amended "/srv" "acme" "pkg-1.0.tar" (by decide)).2 "tar"
      (by rfl) (by decide)
  · exact (spec_c3_amended "/srv" "acme" "README" (by decide)).1 (by rfl)

/-! ## Claim C4: PUT parse failures panic instead of propagating 400 -/

/-- Counterexample to C4 as stated: `PUT /` fails to parse and the
handler panics — the parse rejection's 400 never reaches the transport
layer and no explicit status is produced. -/
theorem spec_c4_cex :
    (handle "/srv" (SpawnResult.exited 0) Method.put
        (RequestUri.absolutePath "/") 0 []).isStatus = false ∧
    handle "/srv" (SpawnResult.exited 0) Method.put
        (RequestUri.absolutePath "/") 0 [] =
      HandleResult.panicked
        "called Result::unwrap on an Err value: Invalid path specified" :=
  ⟨rfl, rfl⟩

/-- Claim C4 amended: on a PUT whose path fails to parse the dispatcher
panics with the unwrapped parse error and produces no status at all, and
the only explicit status any PUT branch terminates in is 200 — the full
success path; parse, extension and store failures all panic. -/
theorem spec_c4_amended (root : String) (sr : SpawnResult) (uri : RequestUri)
    (n : Nat) (fs : FsState) :
    (∀ e, parse_request uri = Except.error e →
      handle root sr Method.put uri n fs =
        HandleResult.panicked
          ("called Result::unwrap on an Err value: " ++ e.error)) ∧
    (∀ c fs2 sp logs, handle root sr Method.put uri n fs =
      HandleResult.status c fs2 sp logs → c = 200) := by
  constructor
  · intro e he
    rw [handle_put]
    unfold process_put_req
    rw [he]
  · intro c fs2 sp logs hh
    rw [handle_put] at hh
    cases hq : process_put_req root uri n fs with
    | ok v =>
      obtain ⟨a, b, cc⟩ := v
      rw [hq] at hh
      have hh2 : HandleResult.status 200 a []
          ["Read " ++ toString b ++ " bytes to file " ++ cc] =
          HandleResult.status c fs2 sp logs := hh
      injection hh2 with e1 e2 e3 e4
      exact e1.symm
    | error msg =>
      rw [hq] at hh
      exact absurd
        (show HandleResult.panicked msg = HandleResult.status c fs2 sp logs from hh)
        (by simp)

/-- Witness for the amended C4: a three-segment PUT path panics with the
parse error, and a successful upload status is 200. -/
theorem spec_c4_witness :
    handle "/srv" (SpawnResult.exited 1) Method.put
        (RequestUri.absolutePath "/a/b/c") 0 [] =
      HandleResult.panicked
        "called Result::unwrap on an Err value: Invalid path specified" := by
  exact (spec_c4_amended "/srv" (SpawnResult.exited 1)
    (RequestUri.absolutePath "/a/b/c") 0 []).1
    { code := 400, error := "Invalid path specified" } (by rfl)

/-! ## Claim C9: GET is unhandled and yields 405, not 200 -/

/-- Counterexample to C9 as stated: `GET /anything` produces status 405,
not 200. -/
theorem spec_c9_cex :
    statusCodeOf (handle "/srv" (SpawnResult.exited 0) Method.get
        (RequestUri.absolutePath "/anything") 0 []) = some 405 ∧
    statusCodeOf (handle "/srv" (SpawnResult.exited 0) Method.get
        (RequestUri.absolutePath "/anything") 0 []) ≠ some 200 :=
  ⟨rfl, by decide⟩

/-- Claim C9 amended: for every GET request, regardless of path, the
dispatcher falls through to the catch-all arm and returns status 405
Method Not Allowed, with the filesystem unchanged, no subprocess spawned
and nothing logged. -/
theorem spec_c9_amended (root : String) (sr : SpawnResult) (uri : RequestUri)
    (n : Nat) (fs : FsState) :
    handle root sr Method.get uri n fs = HandleResult.status 405 fs [] [] :=
  rfl

/-! ## Claim C10: a PUT without a file name panics on the unwrap -/

/-- Claim C10: `file_path` is defined only when `file_name` is present —
with `file_name = none` it fails on the unconditional unwrap, so a
one-segment PUT never produces an HTTP status: the handler panics. -/
theorem spec_c10 (root : String) (req : RepoRequest)
    (h : req.file_name = none) :
    req.file_path root = Except.error "called Option::unwrap on a None value" ∧
    ∀ sr uri n fs, parse_request uri = Except.ok req →
      (handle root sr Method.put uri n fs).isStatus = false := by
  refine ⟨file_path_none root h, ?_⟩
  intro sr uri n fs hp
  rw [handle_put, process_put_req_parsed root uri n fs hp,
    file_path_none root h]
  cases he : req.ensure_repo_exists root fs with
  | error msg => rfl
  | ok fs1 => rfl

/-- Witness for C10 at `PUT /acme`. -/
theorem spec_c10_witness :
    RepoRequest.file_path { repo_name := "acme", file_name := none } "/srv" =
      Except.error "called Option::unwrap on a None value" ∧
    (handle "/srv" (SpawnResult.exited 0) Method.put
        (RequestUri.absolutePath "/acme") 0 []).isStatus = false := by
  have h := spec_c10 "/srv" { repo_name := "acme", file_name := none } rfl
  exact ⟨h.1, h.2 (SpawnResult.exited 0) (RequestUri.absolutePath "/acme") 0 []
    (by rfl)⟩

/-! ## Claim C5: refresh outcome mapping -/

/-- Claim C5: once a POST request has parsed and the repository layout is
ensured, a spawn failure maps to 500 with the spawn error logged, a
non-zero exit maps to 500 with the exit status logged, and a zero exit
maps to 200. -/
theorem spec_c5 (root : String) (uri : RequestUri) (fs : FsState)
    (parsed : RepoRequest) (fs1 : FsState)
    (hp : parse_request uri = Except.ok parsed)
    (he : parsed.ensure_repo_exists root fs = Except.ok fs1) :
    (∀ e, process_post_req root (SpawnResult.spawnError e) uri fs =
      Except.ok (500, fs1,
        ("createrepo", [cache_arg root, "--update", parsed.repo_path root]),
        ["Failed to spawn createrepo command, error " ++ e])) ∧
    (∀ code, code ≠ 0 →
      process_post_req root (SpawnResult.exited code) uri fs =
        Except.ok (500, fs1,
          ("createrepo", [cache_arg root, "--update", parsed.repo_path root]),
          ["Failed to perform metadata refresh for repo " ++
            parsed.repo_path root ++ ", exit status " ++ toString code])) ∧
    process_post_req root (SpawnResult.exited 0) uri fs =
      Except.ok (200, fs1,
        ("createrepo", [cache_arg root, "--update", parsed.repo_path root]),
        []) := by
  refine ⟨?_, ?_, ?_⟩
  · intro e
    rw [process_post_req_parsed root _ uri fs hp, he]
  · intro code hcode
    rw [process_post_req_parsed root _ uri fs hp, he]
    simp [hcode]
  · rw [process_post_req_parsed root _ uri fs hp, he]
    exact rfl

/-- Witness for C5: `POST /acme` against an empty filesystem with exit 0,
exit 1 and a spawn failure. -/
theorem spec_c5_witness :
    process_post_req "/srv" (SpawnResult.exited 0)
        (RequestUri.absolutePath "/acme") [] =
      Except.ok (200,
        [(["srv", "acme", "rpms"], NodeKind.dir),
         (["srv", "acme"], NodeKind.dir), (["srv"], NodeKind.dir)],
        ("createrepo", [cache_arg "/srv", "--update",
          RepoRequest.repo_path { repo_name := "acme", file_name := none } "/srv"]),
        []) ∧
    process_post_req "/srv" (SpawnResult.exited 1)
        (RequestUri.absolutePath "/acme") [] =
      Except.ok (500,
        [(["srv", "acme", "rpms"], NodeKind.dir),
         (["srv", "acme"], NodeKind.dir), (["srv"], NodeKind.dir)],
        ("createrepo", [cache_arg "/srv", "--update",
          RepoRequest.repo_path { repo_name := "acme", file_name := none } "/srv"]),
        ["Failed to perform metadata refresh for repo " ++
          RepoRequest.repo_path { repo_name := "acme", file_name := none } "/srv" ++
          ", exit status " ++ toString 1]) ∧
    process_post_req "/srv" (SpawnResult.spawnError "No such file or directory")
        (RequestUri.absolutePath "/acme") [] =
      Except.ok (500,
        [(["srv", "acme", "rpms"], NodeKind.dir),
         (["srv", "acme"], NodeKind.dir), (["srv"], NodeKind.dir)],
        ("createrepo", [cache_arg "/srv", "--update",
          RepoRequest.repo_path { repo_name := "acme", file_name := none } "/srv"]),
        ["Failed to spawn createrepo command, error No such file or directory"]) := by
  have h := spec_c5 "/srv" (RequestUri.absolutePath "/acme") []
    { repo_name := "acme", file_name := none }
    [(["srv", "acme", "rpms"], NodeKind.dir),
     (["srv", "acme"], NodeKind.dir), (["srv"], NodeKind.dir)]
    (by rfl) (by rfl)
  exact ⟨h.2.2, h.2.1 1 (by decide), h.1 "No such file or directory"⟩

/-! ## Claim C6: the exact indexer invocation -/

theorem str_append_assoc (a b c : String) : a ++ b ++ c = a ++ (b ++ c) := by
  apply String.ext
  rw [string_data_append, string_data_append, string_data_append,
    string_data_append, List.append_assoc]

/-- Claim C6: every successful POST records exactly the invocation
`createrepo --cachedir=<root>/cache --update <root>/<repo>`, whose
arguments depend only on the root and the parsed `repo_name` (never on
`file_name`); for a root that is non-empty and has no trailing slash the
arguments are literally `--cachedir=<root>/cache` and `<root>/<repo>`. -/
theorem spec_c6 (root : String) (sr : SpawnResult) (uri : RequestUri)
    (fs : FsState) (parsed : RepoRequest)
    (hp : parse_request uri = Except.ok parsed) :
    (∀ st fs1 inv logs,
      process_post_req root sr uri fs = Except.ok (st, fs1, inv, logs) →
      inv = ("createrepo",
        [cache_arg root, "--update", rustJoin root parsed.repo_name])) ∧
    (root ≠ "" → endsWithSlash root = false →
      cache_arg root = "--cachedir=" ++ root ++ "/cache" ∧
      rustJoin root parsed.repo_name = root ++ "/" ++ parsed.repo_name) := by
  constructor
  · intro st fs1 inv logs hr
    rw [process_post_req_parsed root sr uri fs hp] at hr
    cases he : parsed.ensure_repo_exists root fs with
    | error msg =>
      rw [he] at hr
      have hr2 : (Except.error msg :
          Except String (Nat × FsState × (String × List String) × List String)) =
          Except.ok (st, fs1, inv, logs) := hr
      exact absurd hr2 (by simp)
    | ok fs2 =>
      rw [he] at hr
      cases sr with
      | spawnError e =>
        have hr2 : (Except.ok (500, fs2,
            ("createrepo", [cache_arg root, "--update", parsed.repo_path root]),
            ["Failed to spawn createrepo command, error " ++ e]) :
            Except String (Nat × FsState × (String × List String) × List String)) =
            Except.ok (st, fs1, inv, logs) := hr
        injection hr2 with hr3
        simp only [Prod.mk.injEq] at hr3
        exact hr3.2.2.1.symm
      | waitFailed e =>
        have hr2 : (Except.error ("called Result::unwrap on an Err value: " ++ e) :
            Except String (Nat × FsState × (String × List String) × List String)) =
            Except.ok (st, fs1, inv, logs) := hr
        exact absurd hr2 (by simp)
      | exited code =>
        by_cases h0 : code = 0
        · subst h0
          have hr2 : (Except.ok (200, fs2,
              ("createrepo", [cache_arg root, "--update", parsed.repo_path root]),
              ([] : List String)) :
              Except String (Nat × FsState × (String × List String) × List String)) =
              Except.ok (st, fs1, inv, logs) := hr
          injection hr2 with hr3
          simp only [Prod.mk.injEq] at hr3
          exact hr3.2.2.1.symm
        · have hr2 : (if code = 0 then
              (Except.ok (200, fs2,
                ("createrepo", [cache_arg root, "--update", parsed.repo_path root]),
                ([] : List String)) :
                Except String (Nat × FsState × (String × List String) × List String))
            else
              Except.ok (500, fs2,
                ("createrepo", [cache_arg root, "--update", parsed.repo_path root]),
                ["Failed to perform metadata refresh for repo " ++
                  parsed.repo_path root ++ ", exit status " ++ toString code])) =
              Except.ok (st, fs1, inv, logs) := hr
          rw [if_neg h0] at hr2
          injection hr2 with hr3
          simp only [Prod.mk.injEq] at hr3
          exact hr3.2.2.1.symm
  · intro hroot hslash
    have hplain := (parse_request_ok_plain hp).1
    have hsw := startsWithSlash_eq_false_of_plain hplain
    have hswc : startsWithSlash "cache" = false := rfl
    constructor
    · have hjc : rustJoin root "cache" = root ++ "/" ++ "cache" := by
        simp [rustJoin, hswc, hroot, hslash]
      unfold cache_arg
      rw [hjc, show ("/cache" : String) = "/" ++ "cache" from rfl,
        str_append_assoc, str_append_assoc]
    · simp [rustJoin, hsw, hroot, hslash]

/-- Witness for C6: a POST with a `file_name` present still invokes the
indexer for the repository only, with the exact three arguments. -/
theorem spec_c6_witness :
    ("createrepo", ["--cachedir=/srv/cache", "--update", "/srv/acme"]) =
      ("createrepo", [cache_arg "/srv", "--update", rustJoin "/srv" "acme"]) ∧
    cache_arg "/srv" = "--cachedir=" ++ "/srv" ++ "/cache" := by
  have h := spec_c6 "/srv" (SpawnResult.exited 0)
    (RequestUri.absolutePath "/acme/notes.txt") []
    { repo_name := "acme", file_name := some "notes.txt" } (by rfl)
  refine ⟨?_, (h.2 (by decide) (by rfl)).1⟩
  exact h.1 200
    [(["srv", "acme", "rpms"], NodeKind.dir),
     (["srv", "acme"], NodeKind.dir), (["srv"], NodeKind.dir)]
    ("createrepo", ["--cachedir=/srv/cache", "--update", "/srv/acme"]) []
    (by rfl)

/-! ## Claim C8: ensure_repo_exists is idempotent -/

theorem mkdirAll_preserves {fs fs2 : FsState} {qs : List (List String)}
    (h : mkdirAll fs qs = Except.ok fs2) :
    ∀ q k, fsLookup fs q = some k → fsLookup fs2 q = some k := by
  induction qs generalizing fs with
  | nil =>
    have h2 : fs = fs2 := by
      unfold mkdirAll at h
      injection h
    subst h2
    exact fun q k hk => hk
  | cons q0 qs ih =>
    unfold mkdirAll at h
    cases hl : fsLookup fs q0 with
    | none =>
      rw [hl] at h
      intro q k hk
      refine ih h q k ?_
      unfold fsLookup
      have hne : ¬ q0 = q := by
        intro e
        rw [e, hk] at hl
        exact absurd hl (by simp)
      rw [if_neg hne]
      exact hk
    | some kind =>
      cases kind with
      | dir =>
        rw [hl] at h
        exact ih h
      | file =>
        rw [hl] at h
        exact absurd h (by simp)

theorem ensure_dir_exists_preserves {p : List String} {fs fs2 : FsState}
    (h : ensure_dir_exists p fs = Except.ok fs2) :
    ∀ q k, fsLookup fs q = some k → fsLookup fs2 q = some k := by
  unfold ensure_dir_exists at h
  cases hl : fsLookup fs p with
  | none =>
    rw [hl] at h
    cases hm : mkdirAll fs (pathPrefixes p) with
    | error msg =>
      rw [hm] at h
      exact absurd (show (Except.error msg : Except String FsState) =
        Except.ok fs2 from h) (by simp)
    | ok fs3 =>
      rw [hm] at h
      have h2 : (if fsLookup fs3 p = some NodeKind.dir then
          (Except.ok fs3 : Except String FsState)
        else Except.error "Path must refer to the directory") =
        Except.ok fs2 := h
      by_cases hd : fsLookup fs3 p = some NodeKind.dir
      · rw [if_pos hd] at h2
        injection h2 with h3
        subst h3
        exact mkdirAll_preserves hm
      · rw [if_neg hd] at h2
        exact absurd h2 (by simp)
  | some kind =>
    rw [hl] at h
    have h2 : (if fsLookup fs p = some NodeKind.dir then
        (Except.ok fs : Except String FsState)
      else Except.error "Path must refer to the directory") =
      Except.ok fs2 := h
    by_cases hd : fsLookup fs p = some NodeKind.dir
    · rw [if_pos hd] at h2
      injection h2 with h3
      subst h3
      exact fun q k hk => hk
    · rw [if_neg hd] at h2
      exact absurd h2 (by simp)

theorem ensure_dir_exists_makes_dir {p : List String} {fs fs2 : FsState}
    (h : ensure_dir_exists p fs = Except.ok fs2) :
    fsLookup fs2 p = some NodeKind.dir := by
  unfold ensure_dir_exists at h
  cases hl : fsLookup fs p with
  | none =>
    rw [hl] at h
    cases hm : mkdirAll fs (pathPrefixes p) with
    | error msg =>
      rw [hm] at h
      exact absurd (show (Except.error msg : Except String FsState) =
        Except.ok fs2 from h) (by simp)
    | ok fs3 =>
      rw [hm] at h
      have h2 : (if fsLookup fs3 p = some NodeKind.dir then
          (Except.ok fs3 : Except String FsState)
        else Except.error "Path must refer to the directory") =
        Except.ok fs2 := h
      by_cases hd : fsLookup fs3 p = some NodeKind.dir
      · rw [if_pos hd] at h2
        injection h2 with h3
        subst h3
        exact hd
      · rw [if_neg hd] at h2
        exact absurd h2 (by simp)
  | some kind =>
    rw [hl] at h
    have h2 : (if fsLookup fs p = some NodeKind.dir then
        (Except.ok fs : Except String FsState)
      else Except.error "Path must refer to the directory") =
      Except.ok fs2 := h
    by_cases hd : fsLookup fs p = some NodeKind.dir
    · rw [if_pos hd] at h2
      injection h2 with h3
      subst h3
      exact hd
    · rw [if_neg hd] at h2
      exact absurd h2 (by simp)

theorem ensure_dir_exists_of_dir {p : List String} {fs : FsState}
    (h : fsLookup fs p = some NodeKind.dir) :
    ensure_dir_exists p fs = Except.ok fs := by
  unfold ensure_dir_exists
  rw [h]
  show (if fsLookup fs p = some NodeKind.dir then
      (Except.ok fs : Except String FsState)
    else Except.error "Path must refer to the directory") = Except.ok fs
  rw [if_pos h]

/-- Claim C8: `ensure_repo_exists` is idempotent — after a successful
call, running it again on the resulting filesystem state succeeds and is
a no-op: the directory state is unchanged and no error occurs. -/
theorem spec_c8 (req : RepoRequest) (root : String) (fs fs2 : FsState)
    (h : req.ensure_repo_exists root fs = Except.ok fs2) :
    req.ensure_repo_exists root fs2 = Except.ok fs2 := by
  unfold RepoRequest.ensure_repo_exists at h ⊢
  cases h1 : ensure_dir_exists (segsOfString (rustJoin root req.repo_name)) fs with
  | error msg =>
    rw [h1] at h
    exact absurd (show (Except.error msg : Except String FsState) =
      Except.ok fs2 from h) (by simp)
  | ok fs3 =>
    rw [h1] at h
    have h2 : ensure_dir_exists
        (segsOfString (rustJoin root req.repo_name) ++ ["rpms"]) fs3 =
        Except.ok fs2 := h
    have hrepo3 : fsLookup fs3 (segsOfString (rustJoin root req.repo_name)) =
        some NodeKind.dir := ensure_dir_exists_makes_dir h1
    have hrepo2 : fsLookup fs2 (segsOfString (rustJoin root req.repo_name)) =
        some NodeKind.dir := ensure_dir_exists_preserves h2 _ _ hrepo3
    have hrpms2 : fsLookup fs2
        (segsOfString (rustJoin root req.repo_name) ++ ["rpms"]) =
        some NodeKind.dir := ensure_dir_exists_makes_dir h2
    rw [ensure_dir_exists_of_dir hrepo2]
    exact ensure_dir_exists_of_dir hrpms2

/-- Witness for C8: creating `acme` under `/srv` twice from the empty
filesystem — the second call returns the state unchanged. -/
theorem spec_c8_witness :
    RepoRequest.ensure_repo_exists { repo_name := "acme", file_name := none }
        "/srv"
        [(["srv", "acme", "rpms"], NodeKind.dir),
         (["srv", "acme"], NodeKind.dir), (["srv"], NodeKind.dir)] =
      Except.ok
        [(["srv", "acme", "rpms"], NodeKind.dir),
         (["srv", "acme"], NodeKind.dir), (["srv"], NodeKind.dir)] := by
  exact spec_c8 { repo_name := "acme", file_name := none } "/srv" []
    [(["srv", "acme", "rpms"], NodeKind.dir),
     (["srv", "acme"], NodeKind.dir), (["srv"], NodeKind.dir)] (by rfl)

/-! ## Claim C7: the refresh lock serialises indexer invocations -/

theorem LockState_phase_mk {n : Nat} (h : Option (Fin n))
    (ph : Fin n → RefreshPhase) : (LockState.mk h ph).phase = ph := rfl

theorem LockState_holder_mk {n : Nat} (h : Option (Fin n))
    (ph : Fin n → RefreshPhase) : (LockState.mk h ph).holder = h := rfl

theorem lockInv_of_reachable {n : Nat} {s : LockState n}
    (h : LockReachable s) : lockInv s := by
  induction h with
  | init =>
    intro t
    constructor
    · intro ht
      exact absurd ht (by simp [initLockState])
    · intro ht
      exact absurd ht (by simp [initLockState])
  | step hr hs ih =>
    cases hs with
    | request t ht =>
      intro u
      simp only [LockState_phase_mk, LockState_holder_mk]
      by_cases hu : u = t
      · subst hu
        rw [Function.update_same]
        constructor
        · intro hph
          exact absurd hph (by simp)
        · intro hold
          have h2 := (ih u).mpr hold
          rw [ht] at h2
          exact absurd h2 (by simp)
      · rw [Function.update_noteq hu]
        exact ih u
    | acquire t ht hfree =>
      intro u
      simp only [LockState_phase_mk, LockState_holder_mk]
      by_cases hu : u = t
      · subst hu
        rw [Function.update_same]
        simp
      · rw [Function.update_noteq hu]
        constructor
        · intro hph
          have h2 := (ih u).mp hph
          rw [hfree] at h2
          exact absurd h2 (by simp)
        · intro hold
          injection hold with h2
          exact absurd h2.symm hu
    | release t outcome ht =>
      intro u
      simp only [LockState_phase_mk, LockState_holder_mk]
      by_cases hu : u = t
      · subst hu
        rw [Function.update_same]
        simp
      · rw [Function.update_noteq hu]
        constructor
        · intro hph
          have h2 := (ih u).mp hph
          have h3 := (ih t).mp ht
          rw [h2] at h3
          injection h3 with h4
          exact absurd h4 hu
        · intro hold
          exact absurd hold (by simp)

/-- Claim C7: in every reachable lock state at most one handler thread is
in flight (spawn-and-wait) at a time; an in-flight thread holds the
mutex, acquired before the spawn; and for every possible subprocess
outcome — spawn failure, wait failure, or any exit status — the in-flight
thread can take the release step, which frees the lock unconditionally. -/
theorem spec_c7 (n : Nat) (s : LockState n) (h : LockReachable s) :
    (∀ t1 t2, s.phase t1 = RefreshPhase.inFlight →
      s.phase t2 = RefreshPhase.inFlight → t1 = t2) ∧
    (∀ t, s.phase t = RefreshPhase.inFlight → s.holder = some t) ∧
    (∀ t outcome, s.phase t = RefreshPhase.inFlight →
      RefreshStep s
        ⟨none, Function.update s.phase t (RefreshPhase.finished outcome)⟩) := by
  have hinv := lockInv_of_reachable h
  refine ⟨?_, ?_, ?_⟩
  · intro t1 t2 h1 h2
    have e1 := (hinv t1).mp h1
    have e2 := (hinv t2).mp h2
    rw [e1] at e2
    exact Option.some.inj e2
  · intro t ht
    exact (hinv t).mp ht
  · intro t outcome ht
    exact RefreshStep.release s t outcome ht

/-- Witness for C7: with two threads, after thread 0 requests and
acquires the lock it is in flight and can take the release step for a
failing exit status, which frees the lock. -/
theorem spec_c7_witness :
    RefreshStep (n := 2)
      ⟨some 0, Function.update
        (Function.update (fun _ => RefreshPhase.idle) 0 RefreshPhase.waitingLock)
        0 RefreshPhase.inFlight⟩
      ⟨none, Function.update
        (Function.update
          (Function.update (fun _ => RefreshPhase.idle) 0 RefreshPhase.waitingLock)
          0 RefreshPhase.inFlight)
        0 (RefreshPhase.finished (SpawnResult.exited 1))⟩ := by
  have h1 : RefreshStep (initLockState 2)
      ⟨none, Function.update (fun _ => RefreshPhase.idle) 0
        RefreshPhase.waitingLock⟩ :=
    RefreshStep.request (initLockState 2) 0 rfl
  have h2 : RefreshStep (n := 2)
      ⟨none, Function.update (fun _ => RefreshPhase.idle) 0
        RefreshPhase.waitingLock⟩
      ⟨some 0, Function.update
        (Function.update (fun _ => RefreshPhase.idle) 0 RefreshPhase.waitingLock)
        0 RefreshPhase.inFlight⟩ :=
    RefreshStep.acquire _ 0 (by rw [LockState_phase_mk, Function.update_same])
      rfl
  have hreach : LockReachable (n := 2)
      ⟨some 0, Function.update
        (Function.update (fun _ => RefreshPhase.idle) 0 RefreshPhase.waitingLock)
        0 RefreshPhase.inFlight⟩ :=
    LockReachable.step (LockReachable.step LockReachable.init h1) h2
  exact (spec_c7 2 _ hreach).2.2 0 (SpawnResult.exited 1)
    (by rw [LockState_phase_mk, Function.update_same])
